import Mathlib

/-!
Shallow embedding of the tic-tac-toe core found under
`src/topics/tic-tac-toe/src` (`types.rs`, `board.rs`, `game.rs`, `ai.rs`),
together with theorems settling the specification claims about it.

Rust's mutating methods are embedded as pure functions returning the new
value (paired with the `bool` result where the source returns one).  The
`i32` scores of the search are embedded as `Int` together with the two
explicit constants `i32Min`/`i32Max` for `i32::MIN`/`i32::MAX`; no
arithmetic in any reachable computation leaves the `i32` range.
-/

namespace TTT

/-- `types.rs`: `enum Player { Human, AI }`. -/
inductive Player where
  | Human
  | AI
deriving DecidableEq, Repr

/-- `types.rs`: `Player::opponent`. -/
def Player.opponent : Player → Player
  | Player.Human => Player.AI
  | Player.AI => Player.Human

/-- `types.rs`: `Player::symbol`. -/
def Player.symbol : Player → Char
  | Player.Human => 'X'
  | Player.AI => 'O'

/-- `types.rs`: `enum Cell { Empty, Occupied(Player) }`. -/
inductive Cell where
  | Empty
  | Occupied (p : Player)
deriving DecidableEq, Repr

/-- `types.rs`: `Cell::is_empty`. -/
def Cell.isEmpty : Cell → Bool
  | Cell.Empty => true
  | Cell.Occupied _ => false

/-- `board.rs`: `struct Board { cells: [Cell; 9] }`.  The fixed-size array
is embedded as a list carrying its length invariant. -/
structure Board where
  cells : List Cell
  hlen : cells.length = 9

/-- `board.rs`: `Board::new` (all cells empty). -/
def Board.new : Board :=
  ⟨List.replicate 9 Cell.Empty, rfl⟩

/-- `board.rs`: `Board::get` (`self.cells.get(position).copied()`). -/
def Board.get (b : Board) (position : Nat) : Option Cell :=
  b.cells.get? position

/-- The cell at a position; equals the Rust array read `self.cells[position]`
for every in-range position, thanks to `Board.hlen`. -/
def Board.cellAt (b : Board) (position : Nat) : Cell :=
  b.cells.getD position Cell.Empty

/-- `board.rs`: `Board::make_move`: fails on an out-of-range position or an
occupied cell; otherwise writes `Occupied(player)` into the single target
cell.  Returns the success flag together with the resulting board. -/
def Board.makeMove (b : Board) (position : Nat) (player : Player) : Bool × Board :=
  if 9 ≤ position then (false, b)
  else if (b.cellAt position).isEmpty then
    (true, ⟨b.cells.set position (Cell.Occupied player), by simp [b.hlen]⟩)
  else (false, b)

/-- `board.rs`: `Board::available_moves`: the indices of all empty cells in
ascending order (the Rust `enumerate`/`filter`/`map` pipeline over the
9-element array visits indices `0..9` in ascending order). -/
def Board.availableMoves (b : Board) : List Nat :=
  (List.range 9).filter fun i => (b.cellAt i).isEmpty

/-- `board.rs`: `Board::is_full`. -/
def Board.isFull (b : Board) : Bool :=
  b.cells.all fun c => !c.isEmpty

/-- Number of empty cells of a board; used as the structural measure (fuel)
for the search recursion. -/
def Board.emptyCount (b : Board) : Nat :=
  b.availableMoves.length

/-- `game.rs`: `enum GameState { InProgress, Won(Player), Draw }`. -/
inductive GameState where
  | InProgress
  | Won (p : Player)
  | Draw
deriving DecidableEq, Repr

/-- `game.rs`: `struct Game { board, current_player, state }`. -/
structure Game where
  board : Board
  currentPlayer : Player
  state : GameState

/-- `game.rs`: `Game::new`: empty board, human to move, in progress. -/
def Game.new : Game :=
  ⟨Board.new, Player.Human, GameState.InProgress⟩

/-- `game.rs`: `Game::check_winner`, stated on the board it reads: some of
the eight winning lines (three rows, then three columns, then the two
diagonals) is fully occupied by `p`. -/
def Board.checkWinner (b : Board) (p : Player) : Bool :=
  decide (b.cellAt 0 = Cell.Occupied p ∧ b.cellAt 1 = Cell.Occupied p ∧ b.cellAt 2 = Cell.Occupied p) ||
  decide (b.cellAt 3 = Cell.Occupied p ∧ b.cellAt 4 = Cell.Occupied p ∧ b.cellAt 5 = Cell.Occupied p) ||
  decide (b.cellAt 6 = Cell.Occupied p ∧ b.cellAt 7 = Cell.Occupied p ∧ b.cellAt 8 = Cell.Occupied p) ||
  decide (b.cellAt 0 = Cell.Occupied p ∧ b.cellAt 3 = Cell.Occupied p ∧ b.cellAt 6 = Cell.Occupied p) ||
  decide (b.cellAt 1 = Cell.Occupied p ∧ b.cellAt 4 = Cell.Occupied p ∧ b.cellAt 7 = Cell.Occupied p) ||
  decide (b.cellAt 2 = Cell.Occupied p ∧ b.cellAt 5 = Cell.Occupied p ∧ b.cellAt 8 = Cell.Occupied p) ||
  decide (b.cellAt 0 = Cell.Occupied p ∧ b.cellAt 4 = Cell.Occupied p ∧ b.cellAt 8 = Cell.Occupied p) ||
  decide (b.cellAt 2 = Cell.Occupied p ∧ b.cellAt 4 = Cell.Occupied p ∧ b.cellAt 6 = Cell.Occupied p)

/-- `game.rs`: `Game::check_winner(player)` reads only `self.board.cells`. -/
def Game.checkWinner (g : Game) (p : Player) : Bool :=
  g.board.checkWinner p

/-- `game.rs`: `Game::update_state`: if the current player has a winning
line the state becomes `Won(current)`; else if the board is full, `Draw`;
otherwise the state is left unchanged. -/
def Game.updateState (g : Game) : Game :=
  if g.checkWinner g.currentPlayer then { g with state := GameState.Won g.currentPlayer }
  else if g.board.isFull then { g with state := GameState.Draw }
  else g

/-- `game.rs`: `Game::from_board`: wraps the board with the designated
side-to-move and state `InProgress`, then runs `update_state`. -/
def Game.fromBoard (b : Board) (p : Player) : Game :=
  Game.updateState ⟨b, p, GameState.InProgress⟩

/-- `game.rs`: `Game::available_moves`. -/
def Game.availableMoves (g : Game) : List Nat :=
  g.board.availableMoves

/-- `game.rs`: `Game::make_move`: rejected when the game is already over or
the board placement fails; on success the state is recomputed and the
active player flipped only if the game is still in progress. -/
def Game.makeMove (g : Game) (position : Nat) : Bool × Game :=
  if g.state ≠ GameState.InProgress then (false, g)
  else
    match g.board.makeMove position g.currentPlayer with
    | (false, _) => (false, g)
    | (true, b') =>
      let g1 := Game.updateState { g with board := b' }
      if g1.state = GameState.InProgress then
        (true, { g1 with currentPlayer := g1.currentPlayer.opponent })
      else
        (true, g1)

/-- `game.rs`: `Game::evaluate`: `+10` for an AI winning line, `-10` for a
human winning line (the AI check is performed first), `0` otherwise. -/
def Game.evaluate (g : Game) : Int :=
  if g.checkWinner Player.AI then 10
  else if g.checkWinner Player.Human then -10
  else 0

/-- A sequence of `make_move` calls that must all succeed, starting from a
given game; `none` as soon as one is rejected. -/
def playMoves : Game → List Nat → Option Game
  | g, [] => some g
  | g, m :: ms =>
    match g.makeMove m with
    | (true, g') => playMoves g' ms
    | (false, _) => none

/-- `i32::MIN`, the initial accumulator of the maximizing fold. -/
def i32Min : Int := -2147483648

/-- `i32::MAX`, the initial accumulator of the minimizing fold. -/
def i32Max : Int := 2147483647

namespace AI

/-- One iteration of the board-copy loop of `AI::simulate_move`: replay the
cell of `b` at index `i` onto the board being built (via `Board::make_move`
when it is occupied, ignoring the success flag as the source does). -/
def copyStep (b : Board) (nb : Board) (i : Nat) : Board :=
  match b.get i with
  | some (Cell.Occupied p) => (nb.makeMove i p).2
  | _ => nb

/-- `ai.rs`: the board-copy loop of `AI::simulate_move`: starting from an
empty board, replay every occupied cell of `game.board()` at indices
`0..9` in order via `Board::make_move`. -/
def copyBoard (b : Board) : Board :=
  (List.range 9).foldl (copyStep b) Board.new

/-- `ai.rs`: `AI::simulate_move`: copy the board, place `player` at
`position` (ignoring the success flag), and build the hypothetical game via
`Game::from_board` with `player.opponent()` to move.  Since `AI::new` is the
only constructor, the struct's `player` field is always `Player::AI`; the
embedding therefore takes no receiver. -/
def simulateMove (g : Game) (position : Nat) (player : Player) : Game :=
  Game.fromBoard ((copyBoard g.board).makeMove position player).2 player.opponent

/-- `ai.rs`: `AI::minimax`, embedded with an explicit fuel bounding the
recursion depth.  The fuel is consulted only where the source recurses; a
call with fuel at least the number of empty cells never reaches the
out-of-fuel branch (proved below), so `minimax` agrees with the source's
unbounded recursion, which terminates for the same reason. -/
def minimaxGo (fuel : Nat) (g : Game) (depth : Int) (isMaximizing : Bool) : Int :=
  let score := g.evaluate
  if score = 10 then score - depth
  else if score = -10 then score + depth
  else
    let avail := g.availableMoves
    if avail.isEmpty then 0
    else
      match fuel with
      | 0 => 0
      | fuel' + 1 =>
        if isMaximizing then
          avail.foldl
            (fun best pos => max best (minimaxGo fuel' (simulateMove g pos Player.AI) (depth + 1) false))
            i32Min
        else
          avail.foldl
            (fun best pos => min best (minimaxGo fuel' (simulateMove g pos Player.Human) (depth + 1) true))
            i32Max

/-- `ai.rs`: `AI::minimax` at its exact recursion budget. -/
def minimax (g : Game) (depth : Int) (isMaximizing : Bool) : Int :=
  minimaxGo g.board.emptyCount g depth isMaximizing

/-- The score `AI::find_best_move` computes for one candidate position:
`minimax` on the hypothetical state after the AI plays there, with
`depth = 0` and `is_maximizing = false`. -/
def candidateScore (g : Game) (position : Nat) : Int :=
  minimax (simulateMove g position Player.AI) 0 false

/-- One step of the candidate scan of `AI::find_best_move`: replace the
current `(best_score, best_move)` pair only on a strictly greater score. -/
def bestStep (f : Nat → Int) (best : Int × Nat) (pos : Nat) : Int × Nat :=
  if f pos > best.1 then (f pos, pos) else best

/-- `ai.rs`: `AI::find_best_move`: `None` when no move is available;
otherwise scan all available moves in order, starting from
`(i32::MIN, available_moves[0])`, keeping a strictly improving score. -/
def findBestMove (g : Game) : Option Nat :=
  match g.availableMoves with
  | [] => none
  | m0 :: rest =>
    some ((m0 :: rest).foldl (bestStep (candidateScore g)) (i32Min, m0)).2

end AI

/-- The game value of a position under perfect play, following the
specification's correctness property for the search: play continues until a
side has a winning line or the board is full, the AI side maximizing and
the human side minimizing the final `evaluate()` score (no depth bias).
Fuel as in `minimaxGo`; `specGameValue` below applies the exact budget. -/
def gvGo (fuel : Nat) (g : Game) (isMaximizing : Bool) : Int :=
  if g.evaluate = 10 then 10
  else if g.evaluate = -10 then -10
  else if g.availableMoves.isEmpty then 0
  else
    match fuel with
    | 0 => 0
    | fuel' + 1 =>
      if isMaximizing then
        g.availableMoves.foldl
          (fun best pos => max best (gvGo fuel' (AI.simulateMove g pos Player.AI) false))
          i32Min
      else
        g.availableMoves.foldl
          (fun best pos => min best (gvGo fuel' (AI.simulateMove g pos Player.Human) true))
          i32Max

/-- The perfect-play value of a position (see `gvGo`). -/
def specGameValue (g : Game) (isMaximizing : Bool) : Int :=
  gvGo g.board.emptyCount g isMaximizing

/-- A board on which the human owns the top row and no other cell is
occupied. -/
def bHumanRow : Board :=
  ⟨[Cell.Occupied Player.Human, Cell.Occupied Player.Human, Cell.Occupied Player.Human,
    Cell.Empty, Cell.Empty, Cell.Empty, Cell.Empty, Cell.Empty, Cell.Empty], rfl⟩

/-- A board on which the human owns the top row and the AI the middle row. -/
def bBothWin : Board :=
  ⟨[Cell.Occupied Player.Human, Cell.Occupied Player.Human, Cell.Occupied Player.Human,
    Cell.Occupied Player.AI, Cell.Occupied Player.AI, Cell.Occupied Player.AI,
    Cell.Empty, Cell.Empty, Cell.Empty], rfl⟩

/-- The position of the AI test `test_ai_takes_winning_move`: human at
0, 1, 8, AI at 3, 4, AI to move; the AI wins immediately at 5. -/
def gWin5 : Game :=
  Game.fromBoard
    ⟨[Cell.Occupied Player.Human, Cell.Occupied Player.Human, Cell.Empty,
      Cell.Occupied Player.AI, Cell.Occupied Player.AI, Cell.Empty,
      Cell.Empty, Cell.Empty, Cell.Occupied Player.Human], rfl⟩
    Player.AI

theorem Player.opponent_opponent (p : Player) : p.opponent.opponent = p := by
  cases p <;> rfl

theorem Game.updateState_board (g : Game) : g.updateState.board = g.board := by
  unfold Game.updateState
  split
  · rfl
  · split <;> rfl

theorem Game.updateState_currentPlayer (g : Game) :
    g.updateState.currentPlayer = g.currentPlayer := by
  unfold Game.updateState
  split
  · rfl
  · split <;> rfl

theorem Game.updateState_state (g : Game) :
    g.updateState.state =
      (if g.board.checkWinner g.currentPlayer then GameState.Won g.currentPlayer
       else if g.board.isFull then GameState.Draw else g.state) := by
  unfold Game.updateState Game.checkWinner
  split
  · simp_all
  · split <;> simp_all

theorem Game.fromBoard_board (b : Board) (p : Player) :
    (Game.fromBoard b p).board = b :=
  Game.updateState_board _

theorem Game.fromBoard_currentPlayer (b : Board) (p : Player) :
    (Game.fromBoard b p).currentPlayer = p :=
  Game.updateState_currentPlayer _

theorem Game.fromBoard_state (b : Board) (p : Player) :
    (Game.fromBoard b p).state =
      (if b.checkWinner p then GameState.Won p
       else if b.isFull then GameState.Draw else GameState.InProgress) :=
  Game.updateState_state _

/-- Claim C2 fails on the code: `from_board` derives the outcome by checking
only the designated side-to-move, so a board whose top row is fully occupied
by the human yields `InProgress` (not `Won(Human)`) when the AI is
designated to move. -/
theorem spec_C2_cex :
    bHumanRow.checkWinner Player.Human = true ∧
    (Game.fromBoard bHumanRow Player.AI).state ≠ GameState.Won Player.Human := by
  constructor
  · decide
  · decide

/-- Claim C2 (amended): the outcome of `from_board(b, p)` is `Won(S)` iff
`S` is the designated side-to-move `p` and some winning line is fully
occupied by `p`; winning lines of the opposite side are not detected, so
the outcome does depend on which side is designated to move. -/
theorem spec_C2_amended (b : Board) (p s : Player) :
    (Game.fromBoard b p).state = GameState.Won s ↔
      (s = p ∧ b.checkWinner p = true) := by
  rw [Game.fromBoard_state]
  by_cases hw : b.checkWinner p = true
  · rw [if_pos hw]
    constructor
    · intro h
      injection h with h
      exact ⟨h.symm, hw⟩
    · rintro ⟨rfl, -⟩
      rfl
  · rw [if_neg hw]
    constructor
    · intro h
      split at h <;> exact absurd h (by simp)
    · rintro ⟨rfl, hc⟩
      exact absurd hc hw

/-- Claim C3 fails on the code: `find_best_move` scores candidates via
`minimax(hypothetical, 0, false)` (depth 0, not 1), so the candidate move 5,
which immediately wins for the AI from `gWin5`, is scored `10 - 0 = 10`,
not `9`. -/
theorem spec_C3_cex :
    (AI.simulateMove gWin5 5 Player.AI).evaluate = 10 ∧
    AI.candidateScore gWin5 5 ≠ 9 := by
  constructor
  · decide
  · decide

/-- Claim C3 (amended): `find_best_move` scores each candidate by calling
`minimax` on the hypothetical state with depth 0 and maximizing false;
`minimax` returns `10 - depth` when `evaluate()` is `+10` and `-10 + depth`
when it is `-10`; consequently a candidate move that immediately wins for
the AI is scored `10 - 0 = 10`. -/
theorem spec_C3_amended (g : Game) (d : Int) (b : Bool) (pos : Nat) :
    (g.evaluate = 10 → AI.minimax g d b = 10 - d) ∧
    (g.evaluate = -10 → AI.minimax g d b = -10 + d) ∧
    ((AI.simulateMove g pos Player.AI).evaluate = 10 →
      AI.candidateScore g pos = 10) := by
  refine ⟨fun h => ?_, fun h => ?_, fun h => ?_⟩
  · rw [AI.minimax]
    unfold AI.minimaxGo
    simp [h]
  · rw [AI.minimax]
    unfold AI.minimaxGo
    simp [h]
  · rw [AI.candidateScore, AI.minimax]
    unfold AI.minimaxGo
    simp [h]

theorem spec_C3_witness :
    (AI.simulateMove gWin5 5 Player.AI).evaluate = 10 ∧
    AI.candidateScore gWin5 5 = 10 :=
  ⟨by decide, (spec_C3_amended gWin5 0 false 5).2.2 (by decide)⟩

/-- Claim C4: `make_move` fails and changes nothing (board, active player
and state are all those of the original game) whenever the position is out
of range, the target cell is occupied, or the game is no longer in
progress. -/
theorem spec_C4_reject (g : Game) (pos : Nat)
    (h : 9 ≤ pos ∨ (g.board.cellAt pos).isEmpty = false ∨
      g.state ≠ GameState.InProgress) :
    g.makeMove pos = (false, g) := by
  by_cases hs : g.state = GameState.InProgress
  · have hbm : g.board.makeMove pos g.currentPlayer = (false, g.board) := by
      rcases h with h9 | hocc | hst
      · rw [Board.makeMove, if_pos h9]
      · rw [Board.makeMove]
        split
        · rfl
        · rw [if_neg (by simp [hocc])]
      · exact absurd hs hst
    rw [Game.makeMove, if_neg (by simp [hs]), hbm]
  · rw [Game.makeMove, if_pos hs]

theorem spec_C4_witness :
    (9 ≤ 9 ∨ (Game.new.board.cellAt 9).isEmpty = false ∨
      Game.new.state ≠ GameState.InProgress) ∧
    Game.new.makeMove 9 = (false, Game.new) :=
  ⟨Or.inl (by decide), spec_C4_reject Game.new 9 (Or.inl (by decide))⟩

/-- Claim C5: a successful `make_move` from an in-progress game writes the
mover's mark into exactly the target cell, recomputes the outcome as
`Won(mover)` when the mover now owns a winning line, else `Draw` when the
board is full, else `InProgress`, and flips the active player exactly when
the recomputed outcome is still `InProgress`. -/
theorem spec_C5_success (g : Game) (pos : Nat) (g' : Game)
    (hin : g.state = GameState.InProgress)
    (h : g.makeMove pos = (true, g')) :
    pos < 9 ∧ (g.board.cellAt pos).isEmpty = true ∧
    g'.board.cells = g.board.cells.set pos (Cell.Occupied g.currentPlayer) ∧
    g'.state =
      (if g'.board.checkWinner g.currentPlayer then GameState.Won g.currentPlayer
       else if g'.board.isFull then GameState.Draw else GameState.InProgress) ∧
    g'.currentPlayer =
      (if g'.state = GameState.InProgress then g.currentPlayer.opponent
       else g.currentPlayer) := by
  rw [Game.makeMove, if_neg (by simp [hin])] at h
  by_cases h9 : 9 ≤ pos
  · rw [Board.makeMove, if_pos h9] at h
    exact absurd (congrArg Prod.fst h) (by simp)
  by_cases hemp : (g.board.cellAt pos).isEmpty = true
  · rw [Board.makeMove, if_neg h9, if_pos hemp] at h
    set b' : Board :=
      ⟨g.board.cells.set pos (Cell.Occupied g.currentPlayer), by simp [g.board.hlen]⟩ with hb'
    set g1 : Game := Game.updateState { g with board := b' } with hg1
    have h2 : (if g1.state = GameState.InProgress then
        ((true : Bool), { g1 with currentPlayer := g1.currentPlayer.opponent })
      else ((true : Bool), g1)) = (true, g') := h
    have hg1b : g1.board = b' := Game.updateState_board _
    have hg1p : g1.currentPlayer = g.currentPlayer := Game.updateState_currentPlayer _
    have hg1s : g1.state =
        (if b'.checkWinner g.currentPlayer then GameState.Won g.currentPlayer
         else if b'.isFull then GameState.Draw else GameState.InProgress) := by
      rw [hg1, Game.updateState_state]
      simp [hin]
    by_cases hs1 : g1.state = GameState.InProgress
    · rw [if_pos hs1] at h2
      have hg' : g' = { g1 with currentPlayer := g1.currentPlayer.opponent } :=
        (congrArg Prod.snd h2).symm
      have hgb : g'.board = b' := by rw [hg']; exact hg1b
      have hgs : g'.state = g1.state := by rw [hg']
      refine ⟨by omega, hemp, by rw [hgb], ?_, ?_⟩
      · rw [hgs, hg1s, hgb]
      · rw [hgs, if_pos hs1, hg']
        simp [hg1p]
    · rw [if_neg hs1] at h2
      have hg' : g' = g1 := (congrArg Prod.snd h2).symm
      have hgb : g'.board = b' := by rw [hg']; exact hg1b
      refine ⟨by omega, hemp, by rw [hgb], ?_, ?_⟩
      · rw [hg', hg1s, hg1b]
      · rw [hg', if_neg hs1, hg1p]
  · rw [Board.makeMove, if_neg h9, if_neg hemp] at h
    exact absurd (congrArg Prod.fst h) (by simp)

theorem spec_C5_witness :
    Game.new.state = GameState.InProgress ∧
    Game.new.makeMove 4 = (true, (Game.new.makeMove 4).2) ∧
    (4 < 9 ∧ (Game.new.board.cellAt 4).isEmpty = true ∧
     (Game.new.makeMove 4).2.board.cells =
       Game.new.board.cells.set 4 (Cell.Occupied Game.new.currentPlayer) ∧
     (Game.new.makeMove 4).2.state =
       (if (Game.new.makeMove 4).2.board.checkWinner Game.new.currentPlayer then
          GameState.Won Game.new.currentPlayer
        else if (Game.new.makeMove 4).2.board.isFull then GameState.Draw
        else GameState.InProgress) ∧
     (Game.new.makeMove 4).2.currentPlayer =
       (if (Game.new.makeMove 4).2.state = GameState.InProgress then
          Game.new.currentPlayer.opponent
        else Game.new.currentPlayer)) :=
  ⟨rfl, rfl, spec_C5_success Game.new 4 (Game.new.makeMove 4).2 rfl rfl⟩

theorem Game.makeMove_success_state (g : Game) (pos : Nat) (g' : Game)
    (h : g.makeMove pos = (true, g')) :
    g.state = GameState.InProgress ∧
    (g'.state = GameState.InProgress →
      g'.currentPlayer = g.currentPlayer.opponent) := by
  by_cases hs : g.state = GameState.InProgress
  · refine ⟨hs, fun hs' => ?_⟩
    rw [Game.makeMove, if_neg (by simp [hs])] at h
    rcases hbm : g.board.makeMove pos g.currentPlayer with ⟨ok, b'⟩
    rw [hbm] at h
    cases ok
    · have h2 : ((false : Bool), g) = (true, g') := h
      exact absurd (congrArg Prod.fst h2) (by simp)
    · set g1 : Game := Game.updateState { g with board := b' } with hg1
      have h2 : (if g1.state = GameState.InProgress then
          ((true : Bool), { g1 with currentPlayer := g1.currentPlayer.opponent })
        else ((true : Bool), g1)) = (true, g') := h
      have hg1p : g1.currentPlayer = g.currentPlayer := Game.updateState_currentPlayer _
      by_cases hs1 : g1.state = GameState.InProgress
      · rw [if_pos hs1] at h2
        have hg' : g' = { g1 with currentPlayer := g1.currentPlayer.opponent } :=
          (congrArg Prod.snd h2).symm
        rw [hg']
        simp [hg1p]
      · rw [if_neg hs1] at h2
        have hg' : g' = g1 := (congrArg Prod.snd h2).symm
        rw [hg'] at hs'
        exact absurd hs' hs1
  · rw [Game.makeMove, if_pos hs] at h
    exact absurd (congrArg Prod.fst h) (by simp)

theorem playMoves_alternation :
    ∀ (ms : List Nat) (g g' : Game),
      playMoves g ms = some g' → g'.state = GameState.InProgress →
      g.state = GameState.InProgress ∧
      g'.currentPlayer =
        (if ms.length % 2 = 0 then g.currentPlayer else g.currentPlayer.opponent) := by
  intro ms
  induction ms with
  | nil =>
    intro g g' h hs'
    rw [playMoves] at h
    cases h
    exact ⟨hs', by simp⟩
  | cons m rest ih =>
    intro g g' h hs'
    rw [playMoves] at h
    rcases hmm : g.makeMove m with ⟨ok, g1⟩
    rw [hmm] at h
    cases ok
    · exact absurd h (by simp)
    · have step := Game.makeMove_success_state g m g1 hmm
      obtain ⟨h1s, hflip⟩ := ih g1 g' h hs'
      refine ⟨step.1, ?_⟩
      have hp1 : g1.currentPlayer = g.currentPlayer.opponent := step.2 h1s
      rw [hflip, hp1]
      rcases Nat.even_or_odd rest.length with he | ho
      · have h0 : rest.length % 2 = 0 := Nat.even_iff.mp he
        have h1 : (rest.length + 1) % 2 = 1 := by omega
        simp [List.length_cons, h0, h1]
      · have h0 : rest.length % 2 = 1 := Nat.odd_iff.mp ho
        have h1 : (rest.length + 1) % 2 = 0 := by omega
        simp [List.length_cons, h0, h1, Player.opponent_opponent]

/-- Claim C7: starting from `Game::new`, along any sequence of successful
moves whose final state is still in progress, the active player strictly
alternates: human when an even number of moves has been played, AI when
odd. -/
theorem spec_C7_alternation (ms : List Nat) (g : Game)
    (h : playMoves Game.new ms = some g) (hs : g.state = GameState.InProgress) :
    g.currentPlayer = (if ms.length % 2 = 0 then Player.Human else Player.AI) :=
  (playMoves_alternation ms Game.new g h hs).2

theorem spec_C7_witness :
    playMoves Game.new [0, 1] = some ((playMoves Game.new [0, 1]).getD Game.new) ∧
    ((playMoves Game.new [0, 1]).getD Game.new).state = GameState.InProgress ∧
    ((playMoves Game.new [0, 1]).getD Game.new).currentPlayer =
      (if ([0, 1] : List Nat).length % 2 = 0 then Player.Human else Player.AI) :=
  ⟨rfl, rfl,
    spec_C7_alternation [0, 1] ((playMoves Game.new [0, 1]).getD Game.new) rfl rfl⟩

/-- Claim C10: on any board where both sides fully occupy some winning line
(constructible through `Game::from_board`), `evaluate()` returns `+10`: the
AI's win is tested first and takes precedence, never `-10`. -/
theorem spec_C10_ai_precedence (b : Board) (p : Player)
    (hai : b.checkWinner Player.AI = true)
    (hh : b.checkWinner Player.Human = true) :
    (Game.fromBoard b p).evaluate = 10 := by
  rw [Game.evaluate, Game.checkWinner, Game.fromBoard_board, hai]
  rfl

theorem spec_C10_witness :
    bBothWin.checkWinner Player.AI = true ∧
    bBothWin.checkWinner Player.Human = true ∧
    (Game.fromBoard bBothWin Player.Human).evaluate = 10 :=
  ⟨by decide, by decide, spec_C10_ai_precedence bBothWin Player.Human (by decide) (by decide)⟩

theorem foldl_maxf_init_le (F : Nat → Int) :
    ∀ (l : List Nat) (a : Int), a ≤ l.foldl (fun best pos => max best (F pos)) a := by
  intro l
  induction l with
  | nil => intro a; simp
  | cons x t ih =>
    intro a
    rw [List.foldl_cons]
    exact le_trans (le_max_left a (F x)) (ih (max a (F x)))

theorem foldl_maxf_le_of_mem (F : Nat → Int) :
    ∀ (l : List Nat) (a : Int) (x : Nat), x ∈ l →
      F x ≤ l.foldl (fun best pos => max best (F pos)) a := by
  intro l
  induction l with
  | nil => intro a x hx; simp at hx
  | cons y t ih =>
    intro a x hx
    rw [List.foldl_cons]
    rcases List.mem_cons.mp hx with rfl | hx
    · exact le_trans (le_max_right a (F x)) (foldl_maxf_init_le F t (max a (F x)))
    · exact ih (max a (F y)) x hx

theorem foldl_maxf_mem (F : Nat → Int) :
    ∀ (l : List Nat) (a : Int),
      l.foldl (fun best pos => max best (F pos)) a = a ∨
      ∃ x ∈ l, l.foldl (fun best pos => max best (F pos)) a = F x := by
  intro l
  induction l with
  | nil => intro a; exact Or.inl rfl
  | cons x t ih =>
    intro a
    rw [List.foldl_cons]
    rcases ih (max a (F x)) with h | ⟨y, hy, h⟩
    · rcases max_choice a (F x) with hm | hm
      · exact Or.inl (h.trans hm)
      · exact Or.inr ⟨x, List.mem_cons_self x t, h.trans hm⟩
    · exact Or.inr ⟨y, List.mem_cons.mpr (Or.inr hy), h⟩

theorem foldl_minf_le_init (F : Nat → Int) :
    ∀ (l : List Nat) (a : Int), l.foldl (fun best pos => min best (F pos)) a ≤ a := by
  intro l
  induction l with
  | nil => intro a; simp
  | cons x t ih =>
    intro a
    rw [List.foldl_cons]
    exact le_trans (ih (min a (F x))) (min_le_left a (F x))

theorem foldl_minf_le_of_mem (F : Nat → Int) :
    ∀ (l : List Nat) (a : Int) (x : Nat), x ∈ l →
      l.foldl (fun best pos => min best (F pos)) a ≤ F x := by
  intro l
  induction l with
  | nil => intro a x hx; simp at hx
  | cons y t ih =>
    intro a x hx
    rw [List.foldl_cons]
    rcases List.mem_cons.mp hx with rfl | hx
    · exact le_trans (foldl_minf_le_init F t (min a (F x))) (min_le_right a (F x))
    · exact ih (min a (F y)) x hx

theorem foldl_minf_mem (F : Nat → Int) :
    ∀ (l : List Nat) (a : Int),
      l.foldl (fun best pos => min best (F pos)) a = a ∨
      ∃ x ∈ l, l.foldl (fun best pos => min best (F pos)) a = F x := by
  intro l
  induction l with
  | nil => intro a; exact Or.inl rfl
  | cons x t ih =>
    intro a
    rw [List.foldl_cons]
    rcases ih (min a (F x)) with h | ⟨y, hy, h⟩
    · rcases min_choice a (F x) with hm | hm
      · exact Or.inl (h.trans hm)
      · exact Or.inr ⟨x, List.mem_cons_self x t, h.trans hm⟩
    · exact Or.inr ⟨y, List.mem_cons.mpr (Or.inr hy), h⟩

theorem getD_set_self (l : List Cell) (i : Nat) (a d : Cell) (h : i < l.length) :
    (l.set i a).getD i d = a := by
  simp [List.getD_eq_getElem?_getD, List.getElem?_set_self, h]

theorem getD_set_ne (l : List Cell) (i j : Nat) (a d : Cell) (h : j ≠ i) :
    (l.set i a).getD j d = l.getD j d := by
  simp [List.getD_eq_getElem?_getD, List.getElem?_set_ne (Ne.symm h)]

theorem mem_availableMoves (b : Board) (i : Nat) :
    i ∈ b.availableMoves ↔ (i < 9 ∧ (b.cellAt i).isEmpty = true) := by
  simp [Board.availableMoves, List.mem_filter, List.mem_range]

theorem availableMoves_pairwise (b : Board) : b.availableMoves.Pairwise (· < ·) :=
  (List.pairwise_lt_range 9).sublist (List.filter_sublist _)

theorem availableMoves_nodup (b : Board) : b.availableMoves.Nodup :=
  (List.nodup_range 9).sublist (List.filter_sublist _)

theorem filter_if_erase (p : Nat → Bool) (pos : Nat) :
    ∀ (l : List Nat), l.Nodup → p pos = true →
      l.filter (fun i => if i = pos then false else p i) = (l.filter p).erase pos := by
  intro l
  induction l with
  | nil => intro _ _; simp
  | cons a t ih =>
    intro hnd hp
    rcases List.nodup_cons.mp hnd with ⟨ha, ht⟩
    by_cases hapos : a = pos
    · subst hapos
      rw [List.filter_cons, List.filter_cons]
      simp only [if_pos rfl, hp, if_true]
      rw [List.erase_cons_head]
      exact List.filter_congr fun i hi => by
        rw [if_neg]
        intro hip
        exact ha (hip ▸ hi)
    · rw [List.filter_cons, List.filter_cons, if_neg hapos]
      by_cases hpa : p a = true
      · simp only [hpa, if_true]
        rw [List.erase_cons_tail (by simp [hapos]), ih ht hp]
      · simp only [hpa]
        simp only [Bool.false_eq_true, if_false]
        exact ih ht hp

theorem availableMoves_set (b b' : Board) (pos : Nat) (p : Player)
    (hc : b'.cells = b.cells.set pos (Cell.Occupied p))
    (h : pos ∈ b.availableMoves) :
    b'.availableMoves = b.availableMoves.erase pos := by
  obtain ⟨h9, hemp⟩ := (mem_availableMoves b pos).mp h
  have hlt : pos < b.cells.length := by rw [b.hlen]; exact h9
  unfold Board.availableMoves
  have hpt : ∀ i ∈ List.range 9,
      (b'.cellAt i).isEmpty =
        (if i = pos then false else (b.cellAt i).isEmpty) := by
    intro i _
    by_cases hip : i = pos
    · subst hip
      rw [if_pos rfl]
      unfold Board.cellAt
      rw [hc, getD_set_self _ _ _ _ hlt]
      rfl
    · rw [if_neg hip]
      unfold Board.cellAt
      rw [hc, getD_set_ne _ _ _ _ _ hip]
  rw [List.filter_congr hpt]
  exact filter_if_erase _ pos (List.range 9) (List.nodup_range 9) hemp

theorem Board.cells_inj (b1 b2 : Board) (h : b1.cells = b2.cells) : b1 = b2 := by
  cases b1
  cases b2
  cases h
  rfl

theorem set_append_length (l1 l2 : List Cell) (a : Cell) :
    (l1 ++ l2).set l1.length a = l1 ++ l2.set 0 a := by
  induction l1 with
  | nil => rfl
  | cons x t ih =>
    rw [List.cons_append, List.length_cons, List.set_cons_succ, ih, List.cons_append]

theorem copyBoard_invariant (b : Board) :
    ∀ k, k ≤ 9 →
      ((List.range k).foldl (AI.copyStep b) Board.new).cells =
        b.cells.take k ++ List.replicate (9 - k) Cell.Empty := by
  intro k
  induction k with
  | zero => intro _; rfl
  | succ k ih =>
    intro hk9
    have hik := ih (by omega)
    have hklen : k < b.cells.length := by rw [b.hlen]; omega
    have hgets : b.get k = some (b.cells.get ⟨k, hklen⟩) := List.get?_eq_get hklen
    have htl : (b.cells.take k).length = k := by
      rw [List.length_take]
      omega
    have htake : b.cells.take (k + 1) = b.cells.take k ++ [b.cells.get ⟨k, hklen⟩] := by
      rw [List.take_succ, List.getElem?_eq_getElem hklen]
      rfl
    have hrep : (9 : Nat) - k = (9 - (k + 1)) + 1 := by omega
    rw [List.range_succ, List.foldl_append, List.foldl_cons, List.foldl_nil]
    rcases hck : b.cells.get ⟨k, hklen⟩ with _ | p
    · have hstep : AI.copyStep b ((List.range k).foldl (AI.copyStep b) Board.new) k =
          (List.range k).foldl (AI.copyStep b) Board.new := by
        rw [AI.copyStep, hgets, hck]
      rw [hstep, hik, htake, hrep, List.replicate_succ, hck]
      rw [List.append_assoc, List.singleton_append]
    · have hstep : AI.copyStep b ((List.range k).foldl (AI.copyStep b) Board.new) k =
          ((((List.range k).foldl (AI.copyStep b) Board.new)).makeMove k p).2 := by
        rw [AI.copyStep, hgets, hck]
      have hcellAt : (((List.range k).foldl (AI.copyStep b) Board.new)).cellAt k =
          Cell.Empty := by
        rw [Board.cellAt, hik, List.getD_append_right _ _ _ _ (le_of_eq htl), htl]
        rw [Nat.sub_self, hrep, List.replicate_succ]
        rfl
      rw [hstep, Board.makeMove, if_neg (by omega), if_pos (by rw [hcellAt]; rfl)]
      show (List.foldl (AI.copyStep b) Board.new (List.range k)).cells.set k
            (Cell.Occupied p) =
          List.take (k + 1) b.cells ++ List.replicate (9 - (k + 1)) Cell.Empty
      rw [hik]
      have hset := set_append_length (b.cells.take k)
        (List.replicate (9 - k) Cell.Empty) (Cell.Occupied p)
      rw [htl] at hset
      rw [hset, hrep, List.replicate_succ, List.set_cons_zero, htake, hck]
      rw [List.append_assoc, List.singleton_append]

theorem copyBoard_eq (b : Board) : AI.copyBoard b = b := by
  apply Board.cells_inj
  rw [AI.copyBoard, copyBoard_invariant b 9 (le_refl 9)]
  rw [Nat.sub_self, List.replicate_zero, List.append_nil]
  exact List.take_of_length_le (le_of_eq b.hlen)

theorem simulateMove_board (g : Game) (pos : Nat) (p : Player)
    (h : pos ∈ g.availableMoves) :
    (AI.simulateMove g pos p).board.cells =
      g.board.cells.set pos (Cell.Occupied p) := by
  obtain ⟨h9, hemp⟩ := (mem_availableMoves g.board pos).mp h
  rw [AI.simulateMove, Game.fromBoard_board, copyBoard_eq, Board.makeMove,
    if_neg (by omega), if_pos hemp]

theorem simulateMove_avail (g : Game) (pos : Nat) (p : Player)
    (h : pos ∈ g.availableMoves) :
    (AI.simulateMove g pos p).availableMoves = g.availableMoves.erase pos := by
  rw [Game.availableMoves, Game.availableMoves]
  exact availableMoves_set g.board _ pos p (simulateMove_board g pos p h) h

theorem simulateMove_emptyCount (g : Game) (pos : Nat) (p : Player)
    (h : pos ∈ g.availableMoves) :
    (AI.simulateMove g pos p).board.emptyCount + 1 = g.board.emptyCount := by
  have h' : pos ∈ g.board.availableMoves := h
  have hlen : (0 : Nat) < g.board.availableMoves.length :=
    List.length_pos.mpr (by intro hnil; rw [hnil] at h'; simp at h')
  have hav := simulateMove_avail g pos p h
  rw [Game.availableMoves, Game.availableMoves] at hav
  rw [Board.emptyCount, Board.emptyCount, hav, List.length_erase_of_mem h']
  omega

theorem emptyCount_le_nine (b : Board) : b.emptyCount ≤ 9 := by
  have h1 : b.availableMoves.length ≤ (List.range 9).length :=
    List.length_filter_le _ _
  rw [List.length_range] at h1
  exact h1

theorem minimaxGo_eval10 (fuel : Nat) (g : Game) (d : Int) (b : Bool)
    (h : g.evaluate = 10) : AI.minimaxGo fuel g d b = 10 - d := by
  unfold AI.minimaxGo
  simp [h]

theorem minimaxGo_evalm10 (fuel : Nat) (g : Game) (d : Int) (b : Bool)
    (h : g.evaluate = -10) : AI.minimaxGo fuel g d b = -10 + d := by
  unfold AI.minimaxGo
  simp [h]

theorem minimaxGo_draw (fuel : Nat) (g : Game) (d : Int) (b : Bool)
    (h10 : g.evaluate ≠ 10) (hm10 : g.evaluate ≠ -10)
    (hav : g.availableMoves = []) : AI.minimaxGo fuel g d b = 0 := by
  unfold AI.minimaxGo
  simp [h10, hm10, hav]

theorem minimaxGo_zero (g : Game) (d : Int) (b : Bool)
    (h10 : g.evaluate ≠ 10) (hm10 : g.evaluate ≠ -10) :
    AI.minimaxGo 0 g d b = 0 := by
  unfold AI.minimaxGo
  by_cases hav : g.availableMoves.isEmpty = true <;> simp [h10, hm10, hav]

theorem minimaxGo_succ (f : Nat) (g : Game) (d : Int) (b : Bool)
    (h10 : g.evaluate ≠ 10) (hm10 : g.evaluate ≠ -10)
    (hav : g.availableMoves ≠ []) :
    AI.minimaxGo (f + 1) g d b =
      (if b then
        g.availableMoves.foldl
          (fun best pos =>
            max best (AI.minimaxGo f (AI.simulateMove g pos Player.AI) (d + 1) false))
          i32Min
      else
        g.availableMoves.foldl
          (fun best pos =>
            min best (AI.minimaxGo f (AI.simulateMove g pos Player.Human) (d + 1) true))
          i32Max) := by
  have hav' : ¬(g.availableMoves.isEmpty = true) := by
    simp [List.isEmpty_iff, hav]
  conv =>
    lhs
    rw [AI.minimaxGo]
  simp only [if_neg h10, if_neg hm10, if_neg hav']

theorem minimaxGo_succ_max (f : Nat) (g : Game) (d : Int)
    (h10 : g.evaluate ≠ 10) (hm10 : g.evaluate ≠ -10)
    (hav : g.availableMoves ≠ []) :
    AI.minimaxGo (f + 1) g d true =
      g.availableMoves.foldl
        (fun best pos =>
          max best (AI.minimaxGo f (AI.simulateMove g pos Player.AI) (d + 1) false))
        i32Min := by
  rw [minimaxGo_succ f g d true h10 hm10 hav]
  rfl

theorem minimaxGo_succ_min (f : Nat) (g : Game) (d : Int)
    (h10 : g.evaluate ≠ 10) (hm10 : g.evaluate ≠ -10)
    (hav : g.availableMoves ≠ []) :
    AI.minimaxGo (f + 1) g d false =
      g.availableMoves.foldl
        (fun best pos =>
          min best (AI.minimaxGo f (AI.simulateMove g pos Player.Human) (d + 1) true))
        i32Max := by
  rw [minimaxGo_succ f g d false h10 hm10 hav]
  rfl

theorem gvGo_eval10 (fuel : Nat) (g : Game) (b : Bool)
    (h : g.evaluate = 10) : gvGo fuel g b = 10 := by
  unfold gvGo
  simp [h]

theorem gvGo_evalm10 (fuel : Nat) (g : Game) (b : Bool)
    (h : g.evaluate = -10) : gvGo fuel g b = -10 := by
  unfold gvGo
  simp [h]

theorem gvGo_draw (fuel : Nat) (g : Game) (b : Bool)
    (h10 : g.evaluate ≠ 10) (hm10 : g.evaluate ≠ -10)
    (hav : g.availableMoves = []) : gvGo fuel g b = 0 := by
  unfold gvGo
  simp [h10, hm10, hav]

theorem gvGo_zero (g : Game) (b : Bool)
    (h10 : g.evaluate ≠ 10) (hm10 : g.evaluate ≠ -10) :
    gvGo 0 g b = 0 := by
  unfold gvGo
  by_cases hav : g.availableMoves.isEmpty = true <;> simp [h10, hm10, hav]

theorem gvGo_succ (f : Nat) (g : Game) (b : Bool)
    (h10 : g.evaluate ≠ 10) (hm10 : g.evaluate ≠ -10)
    (hav : g.availableMoves ≠ []) :
    gvGo (f + 1) g b =
      (if b then
        g.availableMoves.foldl
          (fun best pos => max best (gvGo f (AI.simulateMove g pos Player.AI) false))
          i32Min
      else
        g.availableMoves.foldl
          (fun best pos => min best (gvGo f (AI.simulateMove g pos Player.Human) true))
          i32Max) := by
  have hav' : ¬(g.availableMoves.isEmpty = true) := by
    simp [List.isEmpty_iff, hav]
  conv =>
    lhs
    rw [gvGo]
  simp only [if_neg h10, if_neg hm10, if_neg hav']

theorem gvGo_succ_max (f : Nat) (g : Game)
    (h10 : g.evaluate ≠ 10) (hm10 : g.evaluate ≠ -10)
    (hav : g.availableMoves ≠ []) :
    gvGo (f + 1) g true =
      g.availableMoves.foldl
        (fun best pos => max best (gvGo f (AI.simulateMove g pos Player.AI) false))
        i32Min := by
  rw [gvGo_succ f g true h10 hm10 hav]
  rfl

theorem gvGo_succ_min (f : Nat) (g : Game)
    (h10 : g.evaluate ≠ 10) (hm10 : g.evaluate ≠ -10)
    (hav : g.availableMoves ≠ []) :
    gvGo (f + 1) g false =
      g.availableMoves.foldl
        (fun best pos => min best (gvGo f (AI.simulateMove g pos Player.Human) true))
        i32Max := by
  rw [gvGo_succ f g false h10 hm10 hav]
  rfl

theorem minimaxGo_bounds :
    ∀ (fuel : Nat) (g : Game) (d : Int) (b : Bool),
      0 ≤ d → d + (fuel : Int) ≤ 9 →
      -10 ≤ AI.minimaxGo fuel g d b ∧ AI.minimaxGo fuel g d b ≤ 10 := by
  intro fuel
  induction fuel with
  | zero =>
    intro g d b hd hdf
    simp only [Nat.cast_zero, add_zero] at hdf
    by_cases h10 : g.evaluate = 10
    · rw [minimaxGo_eval10 _ _ _ _ h10]
      omega
    by_cases hm10 : g.evaluate = -10
    · rw [minimaxGo_evalm10 _ _ _ _ hm10]
      omega
    · rw [minimaxGo_zero _ _ _ h10 hm10]
      omega
  | succ f ih =>
    intro g d b hd hdf
    have hdf' : d + (f : Int) ≤ 8 := by
      push_cast at hdf
      omega
    by_cases h10 : g.evaluate = 10
    · rw [minimaxGo_eval10 _ _ _ _ h10]
      omega
    by_cases hm10 : g.evaluate = -10
    · rw [minimaxGo_evalm10 _ _ _ _ hm10]
      omega
    by_cases hav : g.availableMoves = []
    · rw [minimaxGo_draw _ _ _ _ h10 hm10 hav]
      omega
    · obtain ⟨x, hx⟩ := List.exists_mem_of_ne_nil _ hav
      cases b
      · rw [minimaxGo_succ_min f g d h10 hm10 hav]
        constructor
        · rcases foldl_minf_mem
            (fun pos => AI.minimaxGo f (AI.simulateMove g pos Player.Human) (d + 1) true)
            g.availableMoves i32Max with hm | ⟨pos, hpos, hm⟩
          · rw [hm, i32Max]
            omega
          · rw [hm]
            exact (ih (AI.simulateMove g pos Player.Human) (d + 1) true (by omega)
              (by omega)).1
        · have hle := foldl_minf_le_of_mem
            (fun pos => AI.minimaxGo f (AI.simulateMove g pos Player.Human) (d + 1) true)
            g.availableMoves i32Max x hx
          exact le_trans hle (ih (AI.simulateMove g x Player.Human) (d + 1) true
            (by omega) (by omega)).2
      · rw [minimaxGo_succ_max f g d h10 hm10 hav]
        constructor
        · have hle := foldl_maxf_le_of_mem
            (fun pos => AI.minimaxGo f (AI.simulateMove g pos Player.AI) (d + 1) false)
            g.availableMoves i32Min x hx
          exact le_trans (ih (AI.simulateMove g x Player.AI) (d + 1) false
            (by omega) (by omega)).1 hle
        · rcases foldl_maxf_mem
            (fun pos => AI.minimaxGo f (AI.simulateMove g pos Player.AI) (d + 1) false)
            g.availableMoves i32Min with hm | ⟨pos, hpos, hm⟩
          · rw [hm, i32Min]
            omega
          · rw [hm]
            exact (ih (AI.simulateMove g pos Player.AI) (d + 1) false (by omega)
              (by omega)).2

theorem foldl_maxf_le_bound (F : Nat → Int) (l : List Nat) (a B : Int)
    (hB : ∀ x ∈ l, F x ≤ B) (ha : a ≤ B) :
    l.foldl (fun best pos => max best (F pos)) a ≤ B := by
  rcases foldl_maxf_mem F l a with hm | ⟨pos, hpos, hm⟩
  · rw [hm]; exact ha
  · rw [hm]; exact hB pos hpos

theorem foldl_minf_ge_bound (F : Nat → Int) (l : List Nat) (a B : Int)
    (hB : ∀ x ∈ l, B ≤ F x) (ha : B ≤ a) :
    B ≤ l.foldl (fun best pos => min best (F pos)) a := by
  rcases foldl_minf_mem F l a with hm | ⟨pos, hpos, hm⟩
  · rw [hm]; exact ha
  · rw [hm]; exact hB pos hpos

theorem gvGo_range :
    ∀ (fuel : Nat) (g : Game) (b : Bool),
      gvGo fuel g b = -10 ∨ gvGo fuel g b = 0 ∨ gvGo fuel g b = 10 := by
  intro fuel
  induction fuel with
  | zero =>
    intro g b
    by_cases h10 : g.evaluate = 10
    · rw [gvGo_eval10 _ _ _ h10]
      exact Or.inr (Or.inr rfl)
    by_cases hm10 : g.evaluate = -10
    · rw [gvGo_evalm10 _ _ _ hm10]
      exact Or.inl rfl
    · rw [gvGo_zero _ _ h10 hm10]
      exact Or.inr (Or.inl rfl)
  | succ f ih =>
    intro g b
    by_cases h10 : g.evaluate = 10
    · rw [gvGo_eval10 _ _ _ h10]
      exact Or.inr (Or.inr rfl)
    by_cases hm10 : g.evaluate = -10
    · rw [gvGo_evalm10 _ _ _ hm10]
      exact Or.inl rfl
    by_cases hav : g.availableMoves = []
    · rw [gvGo_draw _ _ _ h10 hm10 hav]
      exact Or.inr (Or.inl rfl)
    · obtain ⟨x, hx⟩ := List.exists_mem_of_ne_nil _ hav
      cases b
      · rw [gvGo_succ_min f g h10 hm10 hav]
        rcases foldl_minf_mem
          (fun pos => gvGo f (AI.simulateMove g pos Player.Human) true)
          g.availableMoves i32Max with hm | ⟨pos, hpos, hm⟩
        · exfalso
          have h1 : i32Max ≤ gvGo f (AI.simulateMove g x Player.Human) true := by
            have h2 := foldl_minf_le_of_mem
              (fun pos => gvGo f (AI.simulateMove g pos Player.Human) true)
              g.availableMoves i32Max x hx
            rw [hm] at h2
            exact h2
          rcases ih (AI.simulateMove g x Player.Human) true with h | h | h <;>
            rw [h] at h1 <;> exact absurd h1 (by decide)
        · rw [hm]
          exact ih (AI.simulateMove g pos Player.Human) true
      · rw [gvGo_succ_max f g h10 hm10 hav]
        rcases foldl_maxf_mem
          (fun pos => gvGo f (AI.simulateMove g pos Player.AI) false)
          g.availableMoves i32Min with hm | ⟨pos, hpos, hm⟩
        · exfalso
          have h1 : gvGo f (AI.simulateMove g x Player.AI) false ≤ i32Min := by
            have h2 := foldl_maxf_le_of_mem
              (fun pos => gvGo f (AI.simulateMove g pos Player.AI) false)
              g.availableMoves i32Min x hx
            rw [hm] at h2
            exact h2
          rcases ih (AI.simulateMove g x Player.AI) false with h | h | h <;>
            rw [h] at h1 <;> exact absurd h1 (by decide)
        · rw [hm]
          exact ih (AI.simulateMove g pos Player.AI) false

theorem fold_corr_max (l : List Nat) (Fm Fv : Nat → Int) (hl : l ≠ [])
    (hb : ∀ x ∈ l, -10 ≤ Fm x ∧ Fm x ≤ 10)
    (hr : ∀ x ∈ l, Fv x = -10 ∨ Fv x = 0 ∨ Fv x = 10)
    (hc : ∀ x ∈ l, (0 < Fm x ↔ Fv x = 10) ∧ (Fm x < 0 ↔ Fv x = -10)) :
    (0 < l.foldl (fun best pos => max best (Fm pos)) i32Min ↔
      l.foldl (fun best pos => max best (Fv pos)) i32Min = 10) ∧
    (l.foldl (fun best pos => max best (Fm pos)) i32Min < 0 ↔
      l.foldl (fun best pos => max best (Fv pos)) i32Min = -10) := by
  obtain ⟨x0, hx0⟩ := List.exists_mem_of_ne_nil _ hl
  have hvle : l.foldl (fun best pos => max best (Fv pos)) i32Min ≤ 10 :=
    foldl_maxf_le_bound Fv l i32Min 10
      (fun x hxm => by rcases hr x hxm with h | h | h <;> rw [h] <;> decide)
      (by decide)
  constructor
  · constructor
    · intro h
      rcases foldl_maxf_mem Fm l i32Min with hm | ⟨pos, hpos, hm⟩
      · rw [hm] at h
        exact absurd h (by decide)
      · rw [hm] at h
        have h10 : Fv pos = 10 := ((hc pos hpos).1).mp h
        have hge := foldl_maxf_le_of_mem Fv l i32Min pos hpos
        rw [h10] at hge
        omega
    · intro h
      rcases foldl_maxf_mem Fv l i32Min with hv | ⟨q, hq, hv⟩
      · rw [h] at hv
        exact absurd hv (by decide)
      · rw [h] at hv
        have hq10 : 0 < Fm q := ((hc q hq).1).mpr hv.symm
        exact lt_of_lt_of_le hq10 (foldl_maxf_le_of_mem Fm l i32Min q hq)
  · constructor
    · intro h
      have hall : ∀ pos ∈ l, Fv pos = -10 := by
        intro pos hpos
        have hle := foldl_maxf_le_of_mem Fm l i32Min pos hpos
        exact ((hc pos hpos).2).mp (by omega)
      rcases foldl_maxf_mem Fv l i32Min with hv | ⟨q, hq, hv⟩
      · exfalso
        have h1 := foldl_maxf_le_of_mem Fv l i32Min x0 hx0
        rw [hv, hall x0 hx0] at h1
        exact absurd h1 (by decide)
      · rw [hv, hall q hq]
    · intro h
      have hall : ∀ pos ∈ l, Fm pos < 0 := by
        intro pos hpos
        have hle := foldl_maxf_le_of_mem Fv l i32Min pos hpos
        rw [h] at hle
        have := hr pos hpos
        exact ((hc pos hpos).2).mpr (by omega)
      rcases foldl_maxf_mem Fm l i32Min with hm | ⟨q, hq, hm⟩
      · exfalso
        have h1 := foldl_maxf_le_of_mem Fm l i32Min x0 hx0
        rw [hm] at h1
        have := (hb x0 hx0).1
        exact absurd (le_trans this h1) (by decide)
      · rw [hm]
        exact hall q hq

theorem fold_corr_min (l : List Nat) (Fm Fv : Nat → Int) (hl : l ≠ [])
    (hb : ∀ x ∈ l, -10 ≤ Fm x ∧ Fm x ≤ 10)
    (hr : ∀ x ∈ l, Fv x = -10 ∨ Fv x = 0 ∨ Fv x = 10)
    (hc : ∀ x ∈ l, (0 < Fm x ↔ Fv x = 10) ∧ (Fm x < 0 ↔ Fv x = -10)) :
    (0 < l.foldl (fun best pos => min best (Fm pos)) i32Max ↔
      l.foldl (fun best pos => min best (Fv pos)) i32Max = 10) ∧
    (l.foldl (fun best pos => min best (Fm pos)) i32Max < 0 ↔
      l.foldl (fun best pos => min best (Fv pos)) i32Max = -10) := by
  obtain ⟨x0, hx0⟩ := List.exists_mem_of_ne_nil _ hl
  have hvge : -10 ≤ l.foldl (fun best pos => min best (Fv pos)) i32Max :=
    foldl_minf_ge_bound Fv l i32Max (-10)
      (fun x hxm => by rcases hr x hxm with h | h | h <;> rw [h] <;> decide)
      (by decide)
  constructor
  · constructor
    · intro h
      have hall : ∀ pos ∈ l, Fv pos = 10 := by
        intro pos hpos
        have hle := foldl_minf_le_of_mem Fm l i32Max pos hpos
        exact ((hc pos hpos).1).mp (by omega)
      rcases foldl_minf_mem Fv l i32Max with hv | ⟨q, hq, hv⟩
      · exfalso
        have h1 := foldl_minf_le_of_mem Fv l i32Max x0 hx0
        rw [hv, hall x0 hx0] at h1
        exact absurd h1 (by decide)
      · rw [hv, hall q hq]
    · intro h
      have hall : ∀ pos ∈ l, 0 < Fm pos := by
        intro pos hpos
        have hle := foldl_minf_le_of_mem Fv l i32Max pos hpos
        rw [h] at hle
        have := hr pos hpos
        exact ((hc pos hpos).1).mpr (by omega)
      rcases foldl_minf_mem Fm l i32Max with hm | ⟨q, hq, hm⟩
      · rw [hm]
        decide
      · rw [hm]
        exact hall q hq
  · constructor
    · intro h
      rcases foldl_minf_mem Fm l i32Max with hm | ⟨pos, hpos, hm⟩
      · rw [hm] at h
        exact absurd h (by decide)
      · rw [hm] at h
        have h10 : Fv pos = -10 := ((hc pos hpos).2).mp h
        have hge := foldl_minf_le_of_mem Fv l i32Max pos hpos
        rw [h10] at hge
        omega
    · intro h
      rcases foldl_minf_mem Fv l i32Max with hv | ⟨q, hq, hv⟩
      · rw [h] at hv
        exact absurd hv (by decide)
      · rw [h] at hv
        have hq10 : Fm q < 0 := ((hc q hq).2).mpr hv.symm
        exact lt_of_le_of_lt (foldl_minf_le_of_mem Fm l i32Max q hq) hq10

theorem minimax_gv_corr :
    ∀ (fuel : Nat) (g : Game) (d : Int) (b : Bool),
      0 ≤ d → d + (fuel : Int) ≤ 9 →
      (0 < AI.minimaxGo fuel g d b ↔ gvGo fuel g b = 10) ∧
      (AI.minimaxGo fuel g d b < 0 ↔ gvGo fuel g b = -10) := by
  intro fuel
  induction fuel with
  | zero =>
    intro g d b hd hdf
    simp only [Nat.cast_zero, add_zero] at hdf
    by_cases h10 : g.evaluate = 10
    · rw [minimaxGo_eval10 _ _ _ _ h10, gvGo_eval10 _ _ _ h10]
      exact ⟨⟨fun _ => rfl, fun _ => by omega⟩, ⟨fun h => by omega, fun h => by omega⟩⟩
    by_cases hm10 : g.evaluate = -10
    · rw [minimaxGo_evalm10 _ _ _ _ hm10, gvGo_evalm10 _ _ _ hm10]
      exact ⟨⟨fun h => by omega, fun h => by omega⟩, ⟨fun _ => rfl, fun _ => by omega⟩⟩
    · rw [minimaxGo_zero _ _ _ h10 hm10, gvGo_zero _ _ h10 hm10]
      exact ⟨⟨fun h => by omega, fun h => by omega⟩, ⟨fun h => by omega, fun h => by omega⟩⟩
  | succ f ih =>
    intro g d b hd hdf
    have hdf' : d + (f : Int) ≤ 8 := by
      push_cast at hdf
      omega
    by_cases h10 : g.evaluate = 10
    · rw [minimaxGo_eval10 _ _ _ _ h10, gvGo_eval10 _ _ _ h10]
      exact ⟨⟨fun _ => rfl, fun _ => by omega⟩, ⟨fun h => by omega, fun h => by omega⟩⟩
    by_cases hm10 : g.evaluate = -10
    · rw [minimaxGo_evalm10 _ _ _ _ hm10, gvGo_evalm10 _ _ _ hm10]
      exact ⟨⟨fun h => by omega, fun h => by omega⟩, ⟨fun _ => rfl, fun _ => by omega⟩⟩
    by_cases hav : g.availableMoves = []
    · rw [minimaxGo_draw _ _ _ _ h10 hm10 hav, gvGo_draw _ _ _ h10 hm10 hav]
      exact ⟨⟨fun h => by omega, fun h => by omega⟩, ⟨fun h => by omega, fun h => by omega⟩⟩
    · cases b
      · rw [minimaxGo_succ_min f g d h10 hm10 hav, gvGo_succ_min f g h10 hm10 hav]
        exact fold_corr_min g.availableMoves
          (fun pos => AI.minimaxGo f (AI.simulateMove g pos Player.Human) (d + 1) true)
          (fun pos => gvGo f (AI.simulateMove g pos Player.Human) true)
          hav
          (fun x _ => minimaxGo_bounds f (AI.simulateMove g x Player.Human) (d + 1) true
            (by omega) (by omega))
          (fun x _ => gvGo_range f (AI.simulateMove g x Player.Human) true)
          (fun x _ => ih (AI.simulateMove g x Player.Human) (d + 1) true
            (by omega) (by omega))
      · rw [minimaxGo_succ_max f g d h10 hm10 hav, gvGo_succ_max f g h10 hm10 hav]
        exact fold_corr_max g.availableMoves
          (fun pos => AI.minimaxGo f (AI.simulateMove g pos Player.AI) (d + 1) false)
          (fun pos => gvGo f (AI.simulateMove g pos Player.AI) false)
          hav
          (fun x _ => minimaxGo_bounds f (AI.simulateMove g x Player.AI) (d + 1) false
            (by omega) (by omega))
          (fun x _ => gvGo_range f (AI.simulateMove g x Player.AI) false)
          (fun x _ => ih (AI.simulateMove g x Player.AI) (d + 1) false
            (by omega) (by omega))

theorem minimaxGo_fuel :
    ∀ (fuel : Nat) (g : Game) (d : Int) (b : Bool),
      g.board.emptyCount ≤ fuel →
      AI.minimaxGo fuel g d b = AI.minimax g d b := by
  intro fuel
  induction fuel with
  | zero =>
    intro g d b he
    rw [AI.minimax, Nat.le_zero.mp he]
  | succ f ih =>
    intro g d b he
    rw [AI.minimax]
    by_cases h10 : g.evaluate = 10
    · rw [minimaxGo_eval10 _ _ _ _ h10, minimaxGo_eval10 _ _ _ _ h10]
    by_cases hm10 : g.evaluate = -10
    · rw [minimaxGo_evalm10 _ _ _ _ hm10, minimaxGo_evalm10 _ _ _ _ hm10]
    by_cases hav : g.availableMoves = []
    · rw [minimaxGo_draw _ _ _ _ h10 hm10 hav, minimaxGo_draw _ _ _ _ h10 hm10 hav]
    · have hav' : g.board.availableMoves ≠ [] := hav
      have hpos : 0 < g.board.emptyCount := List.length_pos.mpr hav'
      obtain ⟨e, hee⟩ : ∃ e, g.board.emptyCount = e + 1 :=
        ⟨g.board.emptyCount - 1, by omega⟩
      have hef : e ≤ f := by omega
      have hchild : ∀ pos ∈ g.availableMoves, ∀ (p : Player),
          (AI.simulateMove g pos p).board.emptyCount = e := by
        intro pos hposm p
        have := simulateMove_emptyCount g pos p hposm
        omega
      have hrec : ∀ pos ∈ g.availableMoves, ∀ (p : Player) (d' : Int) (b' : Bool),
          AI.minimaxGo f (AI.simulateMove g pos p) d' b' =
            AI.minimaxGo e (AI.simulateMove g pos p) d' b' := by
        intro pos hposm p d' b'
        rw [ih (AI.simulateMove g pos p) d' b' (by rw [hchild pos hposm p]; exact hef)]
        rw [AI.minimax, hchild pos hposm p]
      rw [hee]
      cases b
      · rw [minimaxGo_succ_min f g d h10 hm10 hav, minimaxGo_succ_min e g d h10 hm10 hav]
        exact List.foldl_ext _ _ i32Max fun acc pos hposm => by
          rw [hrec pos hposm Player.Human (d + 1) true]
      · rw [minimaxGo_succ_max f g d h10 hm10 hav, minimaxGo_succ_max e g d h10 hm10 hav]
        exact List.foldl_ext _ _ i32Min fun acc pos hposm => by
          rw [hrec pos hposm Player.AI (d + 1) false]

theorem candidateScore_bounds (g : Game) (pos : Nat) :
    -10 ≤ AI.candidateScore g pos ∧ AI.candidateScore g pos ≤ 10 := by
  rw [AI.candidateScore, AI.minimax]
  refine minimaxGo_bounds _ _ 0 false (le_refl 0) ?_
  have := emptyCount_le_nine (AI.simulateMove g pos Player.AI).board
  omega

theorem bestStep_foldl_spec (f : Nat → Int) :
    ∀ (t : List Nat) (s : Int) (m : Nat),
      f m = s → (∀ x ∈ t, m < x) → t.Pairwise (· < ·) →
      f (t.foldl (AI.bestStep f) (s, m)).2 = (t.foldl (AI.bestStep f) (s, m)).1 ∧
      ((t.foldl (AI.bestStep f) (s, m)).2 = m ∨
        ((t.foldl (AI.bestStep f) (s, m)).2 ∈ t ∧
          s < (t.foldl (AI.bestStep f) (s, m)).1)) ∧
      s ≤ (t.foldl (AI.bestStep f) (s, m)).1 ∧
      (∀ x ∈ t, f x ≤ (t.foldl (AI.bestStep f) (s, m)).1) ∧
      (∀ x ∈ t, f x = (t.foldl (AI.bestStep f) (s, m)).1 →
        (t.foldl (AI.bestStep f) (s, m)).2 ≤ x) := by
  intro t
  induction t with
  | nil =>
    intro s m hfm _ _
    refine ⟨hfm, Or.inl rfl, le_refl s, ?_, ?_⟩ <;> intro x hx <;> simp at hx
  | cons a t ih =>
    intro s m hfm hlt hpw
    rw [List.foldl_cons]
    have hpw' : t.Pairwise (· < ·) := (List.pairwise_cons.mp hpw).2
    have hal : ∀ x ∈ t, a < x := (List.pairwise_cons.mp hpw).1
    have hma : m < a := hlt a (List.mem_cons_self a t)
    by_cases hfa : f a > s
    · have hstep : AI.bestStep f (s, m) a = (f a, a) := by
        rw [AI.bestStep, if_pos hfa]
      rw [hstep]
      obtain ⟨A, B, C, D, E⟩ := ih (f a) a rfl hal hpw'
      refine ⟨A, ?_, ?_, ?_, ?_⟩
      · rcases B with hB | ⟨hB1, hB2⟩
        · refine Or.inr ⟨?_, lt_of_lt_of_le hfa C⟩
          rw [hB]
          exact List.mem_cons_self a t
        · exact Or.inr ⟨List.mem_cons.mpr (Or.inr hB1), lt_trans hfa hB2⟩
      · exact le_trans (le_of_lt hfa) C
      · intro x hx
        rcases List.mem_cons.mp hx with rfl | hx
        · exact C
        · exact D x hx
      · intro x hx hfx
        rcases List.mem_cons.mp hx with rfl | hx
        · rcases B with hB | ⟨hB1, hB2⟩
          · rw [hB]
          · exfalso
            omega
        · exact E x hx hfx
    · have hstep : AI.bestStep f (s, m) a = (s, m) := by
        rw [AI.bestStep, if_neg hfa]
      rw [hstep]
      obtain ⟨A, B, C, D, E⟩ :=
        ih s m hfm (fun x hx => hlt x (List.mem_cons.mpr (Or.inr hx))) hpw'
      refine ⟨A, ?_, C, ?_, ?_⟩
      · rcases B with hB | ⟨hB1, hB2⟩
        · exact Or.inl hB
        · exact Or.inr ⟨List.mem_cons.mpr (Or.inr hB1), hB2⟩
      · intro x hx
        rcases List.mem_cons.mp hx with rfl | hx
        · exact le_trans (not_lt.mp hfa) C
        · exact D x hx
      · intro x hx hfx
        rcases List.mem_cons.mp hx with rfl | hx
        · rcases B with hB | ⟨hB1, hB2⟩
          · rw [hB]
            exact le_of_lt hma
          · exfalso
            have hfa' : f x ≤ s := not_lt.mp hfa
            omega
        · exact E x hx hfx

theorem findBestMove_spec (g : Game) (h : g.availableMoves ≠ []) :
    ∃ m, AI.findBestMove g = some m ∧ m ∈ g.availableMoves ∧
      (∀ x ∈ g.availableMoves, AI.candidateScore g x ≤ AI.candidateScore g m) ∧
      (∀ x ∈ g.availableMoves,
        AI.candidateScore g x = AI.candidateScore g m → m ≤ x) := by
  rcases hav : g.availableMoves with _ | ⟨m0, rest⟩
  · exact absurd hav h
  · have hi32 : i32Min = -2147483648 := rfl
    have hgt : AI.candidateScore g m0 > i32Min := by
      have := candidateScore_bounds g m0
      omega
    have hstep : AI.bestStep (AI.candidateScore g) (i32Min, m0) m0 =
        (AI.candidateScore g m0, m0) := by
      rw [AI.bestStep, if_pos hgt]
    have hfold : (m0 :: rest).foldl (AI.bestStep (AI.candidateScore g)) (i32Min, m0) =
        rest.foldl (AI.bestStep (AI.candidateScore g)) (AI.candidateScore g m0, m0) := by
      rw [List.foldl_cons, hstep]
    have hfb0 : AI.findBestMove g =
        some (((m0 :: rest).foldl (AI.bestStep (AI.candidateScore g))
          (i32Min, m0)).2) := by
      rw [AI.findBestMove, hav]
    have hfb : AI.findBestMove g =
        some ((rest.foldl (AI.bestStep (AI.candidateScore g))
          (AI.candidateScore g m0, m0)).2) := by
      rw [hfb0, hfold]
    have hpw : (m0 :: rest).Pairwise (· < ·) := by
      have hp := availableMoves_pairwise g.board
      have hq : g.board.availableMoves = m0 :: rest := hav
      rwa [hq] at hp
    have hm0lt : ∀ x ∈ rest, m0 < x := (List.pairwise_cons.mp hpw).1
    have hpw' : rest.Pairwise (· < ·) := (List.pairwise_cons.mp hpw).2
    obtain ⟨A, B, C, D, E⟩ :=
      bestStep_foldl_spec (AI.candidateScore g) rest (AI.candidateScore g m0) m0
        rfl hm0lt hpw'
    refine ⟨_, hfb, ?_, ?_, ?_⟩
    · rcases B with hB | ⟨hB1, _⟩
      · rw [hB]
        exact List.mem_cons_self m0 rest
      · exact List.mem_cons.mpr (Or.inr hB1)
    · intro x hx
      rcases List.mem_cons.mp hx with rfl | hx
      · omega
      · have := D x hx
        omega
    · intro x hx hfx
      rcases List.mem_cons.mp hx with rfl | hx
      · rcases B with hB | ⟨hB1, hB2⟩
        · rw [hB]
        · exfalso
          omega
      · exact E x hx (by rw [hfx, A])

/-- Claim C6: with at least one legal move, `find_best_move` returns the
lowest-index position among all legal positions whose candidate `minimax`
score is maximal: the scan is in ascending index order and replaces the
current best only on a strictly greater score. -/
theorem spec_C6_tie_break (g : Game) (h : g.availableMoves ≠ []) :
    ∃ m, AI.findBestMove g = some m ∧ m ∈ g.availableMoves ∧
      (∀ x ∈ g.availableMoves, AI.candidateScore g x ≤ AI.candidateScore g m) ∧
      (∀ x ∈ g.availableMoves,
        AI.candidateScore g x = AI.candidateScore g m → m ≤ x) :=
  findBestMove_spec g h

theorem spec_C6_witness :
    gWin5.availableMoves ≠ [] ∧
    (∃ m, AI.findBestMove gWin5 = some m ∧ m ∈ gWin5.availableMoves ∧
      (∀ x ∈ gWin5.availableMoves,
        AI.candidateScore gWin5 x ≤ AI.candidateScore gWin5 m) ∧
      (∀ x ∈ gWin5.availableMoves,
        AI.candidateScore gWin5 x = AI.candidateScore gWin5 m → m ≤ x)) :=
  ⟨by decide, spec_C6_tie_break gWin5 (by decide)⟩

/-- Claim C8: `find_best_move` returns nothing exactly when no move is
available; whenever a legal move exists it returns a position in `[0, 9)`
whose cell is currently empty. -/
theorem spec_C8_totality (g : Game) :
    (AI.findBestMove g = none ↔ g.availableMoves = []) ∧
    (g.availableMoves ≠ [] →
      ∃ m, AI.findBestMove g = some m ∧ m < 9 ∧
        (g.board.cellAt m).isEmpty = true) := by
  constructor
  · constructor
    · intro hn
      by_contra hne
      obtain ⟨m, hm, -, -, -⟩ := findBestMove_spec g hne
      rw [hm] at hn
      exact absurd hn (by simp)
    · intro he
      rw [AI.findBestMove, he]
  · intro hne
    obtain ⟨m, hm, hmem, -, -⟩ := findBestMove_spec g hne
    obtain ⟨h9, hemp⟩ := (mem_availableMoves g.board m).mp hmem
    exact ⟨m, hm, h9, hemp⟩

theorem spec_C8_witness :
    gWin5.availableMoves ≠ [] ∧
    (∃ m, AI.findBestMove gWin5 = some m ∧ m < 9 ∧
      (gWin5.board.cellAt m).isEmpty = true) :=
  ⟨by decide, (spec_C8_totality gWin5).2 (by decide)⟩

/-- Claim C1: for every game with at least one legal move, the move
returned by `find_best_move` is optimal for the AI: no other legal move has
a strictly greater perfect-play value (`specGameValue`, the AI maximizing
and the human minimizing the `evaluate()` score). -/
theorem spec_C1_minimax_optimal (g : Game) (h : g.availableMoves ≠ []) :
    ∃ m, AI.findBestMove g = some m ∧ m ∈ g.availableMoves ∧
      ∀ x ∈ g.availableMoves,
        specGameValue (AI.simulateMove g x Player.AI) false ≤
          specGameValue (AI.simulateMove g m Player.AI) false := by
  obtain ⟨m, hm, hmem, hmax, -⟩ := findBestMove_spec g h
  refine ⟨m, hm, hmem, ?_⟩
  intro x hx
  have hcorr : ∀ y : Nat,
      (0 < AI.candidateScore g y ↔
        specGameValue (AI.simulateMove g y Player.AI) false = 10) ∧
      (AI.candidateScore g y < 0 ↔
        specGameValue (AI.simulateMove g y Player.AI) false = -10) := by
    intro y
    rw [AI.candidateScore, AI.minimax, specGameValue]
    refine minimax_gv_corr _ _ 0 false (le_refl 0) ?_
    have := emptyCount_le_nine (AI.simulateMove g y Player.AI).board
    omega
  have hrx : specGameValue (AI.simulateMove g x Player.AI) false = -10 ∨
      specGameValue (AI.simulateMove g x Player.AI) false = 0 ∨
      specGameValue (AI.simulateMove g x Player.AI) false = 10 := by
    rw [specGameValue]
    exact gvGo_range _ _ false
  have hrm : specGameValue (AI.simulateMove g m Player.AI) false = -10 ∨
      specGameValue (AI.simulateMove g m Player.AI) false = 0 ∨
      specGameValue (AI.simulateMove g m Player.AI) false = 10 := by
    rw [specGameValue]
    exact gvGo_range _ _ false
  have hle := hmax x hx
  rcases hrx with hvx | hvx | hvx
  · rcases hrm with hvm | hvm | hvm <;> omega
  · have hx1 : ¬(0 < AI.candidateScore g x) := fun hc => by
      have := ((hcorr x).1).mp hc
      omega
    have hx2 : ¬(AI.candidateScore g x < 0) := fun hc => by
      have := ((hcorr x).2).mp hc
      omega
    have hm2 : ¬(specGameValue (AI.simulateMove g m Player.AI) false = -10) := by
      intro hc
      have := ((hcorr m).2).mpr hc
      omega
    rcases hrm with hvm | hvm | hvm <;> omega
  · have hx1 : 0 < AI.candidateScore g x := ((hcorr x).1).mpr hvx
    have hm1 : 0 < AI.candidateScore g m := by omega
    have hvm : specGameValue (AI.simulateMove g m Player.AI) false = 10 :=
      ((hcorr m).1).mp hm1
    omega

theorem spec_C1_witness :
    gWin5.availableMoves ≠ [] ∧
    (∃ m, AI.findBestMove gWin5 = some m ∧ m ∈ gWin5.availableMoves ∧
      ∀ x ∈ gWin5.availableMoves,
        specGameValue (AI.simulateMove gWin5 x Player.AI) false ≤
          specGameValue (AI.simulateMove gWin5 m Player.AI) false) :=
  ⟨by decide, spec_C1_minimax_optimal gWin5 (by decide)⟩

/-- Claim C9: the search recursion is total: each recursive call of
`minimax` operates on a hypothetical state with exactly one more occupied
cell, the number of empty cells never exceeds 9, and any recursion budget
of at least that number (in particular 9) yields the same value as
`minimax` itself, so `find_best_move` is a total function. -/
theorem spec_C9_termination (g : Game) (d : Int) (b : Bool) (fuel : Nat)
    (h : g.board.emptyCount ≤ fuel) :
    AI.minimaxGo fuel g d b = AI.minimax g d b ∧
    g.board.emptyCount ≤ 9 ∧
    (∀ pos ∈ g.availableMoves, ∀ p : Player,
      (AI.simulateMove g pos p).board.emptyCount + 1 = g.board.emptyCount) :=
  ⟨minimaxGo_fuel fuel g d b h, emptyCount_le_nine g.board,
    fun pos hpos p => simulateMove_emptyCount g pos p hpos⟩

theorem spec_C9_witness :
    gWin5.board.emptyCount ≤ 9 ∧
    (AI.minimaxGo 9 gWin5 0 false = AI.minimax gWin5 0 false ∧
      gWin5.board.emptyCount ≤ 9 ∧
      (∀ pos ∈ gWin5.availableMoves, ∀ p : Player,
        (AI.simulateMove gWin5 pos p).board.emptyCount + 1 =
          gWin5.board.emptyCount)) :=
  ⟨by decide, spec_C9_termination gWin5 0 false 9 (by decide)⟩

end TTT
